import Mathlib

/-!
# Verification of the tuku image-ingestion core

Shallow embedding of the pixel-conversion core of the `tuku` server
(`src/unnamed/part_000`, with the sibling variant `src/server/index.js`
for the dispatch guard): the BT.601 YUV→RGB transform, the raw pixel-format
decoders (UYVY, YUY2, NV21, RGB/BGR, RGBA/BGRA), the resolution resolver,
the legacy-bitmap codec's alpha heuristic, and the raw/standard dispatch.

Byte buffers (Node `Buffer`) are modelled as `Array Nat`:
* `Buffer.alloc n` is `Array.mkArray n 0` (zero-initialized);
* an out-of-bounds write on a `Buffer` is silently dropped, which is
  exactly `Array.setD`;
* in-bounds reads are `Array.getD _ 0` (all reads relevant to the theorems
  below are guarded in-bounds by the source; where the source can read past
  the end — NV21 luma on a severely undersized buffer — the JS `undefined`
  value propagates as `NaN` through the arithmetic and is stored as byte
  `0`, which coincides with the bytes produced by `getD _ 0` there, see
  the note on `nv21ToRgba`).
-/

namespace Tuku

/-- JS `Math.max(0, Math.min(255, x))`, producing the byte actually stored. -/
def clamp8 (x : Int) : Nat := (max 0 (min 255 x)).toNat

/-- From `src/unnamed/part_000` lines 70–84, `convertYuvPixelToRgb`.
JS `>> 8` on these int32-range intermediates is an arithmetic shift,
i.e. floor division by 256 (`Int.fdiv`). The function writes the four
bytes `R,G,B,255` at `offset .. offset+3` of `outBuffer`. -/
def convertYuvPixelToRgb (y u v : Nat) (outBuffer : Array Nat) (offset : Nat) :
    Array Nat :=
  let c : Int := (y : Int) - 16
  let d : Int := (u : Int) - 128
  let e : Int := (v : Int) - 128
  let r : Int := Int.fdiv (298 * c + 409 * e + 128) 256
  let g : Int := Int.fdiv (298 * c - 100 * d - 208 * e + 128) 256
  let b : Int := Int.fdiv (298 * c + 516 * d + 128) 256
  ((((outBuffer.setD offset (clamp8 r)).setD (offset + 1)
      (clamp8 g)).setD (offset + 2) (clamp8 b)).setD (offset + 3) 255)

/-- The four bytes the transform produces for one pixel, as a pure tuple
`(R, G, B, A)`. -/
def yuvPixel (y u v : Nat) : Nat × Nat × Nat × Nat :=
  (clamp8 (Int.fdiv (298 * ((y : Int) - 16) + 409 * ((v : Int) - 128) + 128) 256),
   clamp8 (Int.fdiv (298 * ((y : Int) - 16) - 100 * ((u : Int) - 128)
      - 208 * ((v : Int) - 128) + 128) 256),
   clamp8 (Int.fdiv (298 * ((y : Int) - 16) + 516 * ((u : Int) - 128) + 128) 256),
   255)

/-- Reading the 4 bytes of pixel `p` out of an RGBA byte buffer. -/
def pixelAt (a : Array Nat) (p : Nat) : Nat × Nat × Nat × Nat :=
  (a.getD (4 * p) 0, a.getD (4 * p + 1) 0, a.getD (4 * p + 2) 0, a.getD (4 * p + 3) 0)

theorem clamp8_le (x : Int) : clamp8 x ≤ 255 := by
  unfold clamp8
  rcases le_total x 255 with h | h
  · have : max 0 (min 255 x) ≤ 255 := by
      simp [min_def, max_def]
      omega
    omega
  · have hm : min 255 x = 255 := min_eq_left h
    simp [hm]

theorem getD_setD_ne (a : Array Nat) (i j : Nat) (v d : Nat) (h : i ≠ j) :
    (a.setD i v).getD j d = a.getD j d := by
  unfold Array.setD
  split
  · simp only [Array.getD_eq_get?]
    rw [Array.getElem?_set_ne]
    exact h
  · rfl

theorem getD_setD_eq (a : Array Nat) (i : Nat) (v d : Nat) (p : i < a.size) :
    (a.setD i v).getD i d = v := by
  simp only [Array.getD_eq_get?]
  rw [Array.getElem?_setD_eq a p]
  rfl

theorem getD_mkArray_zero (n j : Nat) :
    (Array.mkArray n (0 : Nat)).getD j 0 = 0 := by
  simp only [Array.getD_eq_get?]
  rcases lt_or_ge j n with h | h
  · rw [Array.getElem?_lt _ (by simpa using h)]
    simp [Array.getElem_mkArray]
  · rw [Array.getElem?_ge _ (by simpa using h)]
    rfl

theorem convert_size (y u v : Nat) (a : Array Nat) (off : Nat) :
    (convertYuvPixelToRgb y u v a off).size = a.size := by
  simp [convertYuvPixelToRgb]

theorem convert_getD_lt (y u v : Nat) (a : Array Nat) (off j d : Nat)
    (h : j < off) :
    (convertYuvPixelToRgb y u v a off).getD j d = a.getD j d := by
  unfold convertYuvPixelToRgb
  rw [getD_setD_ne _ _ _ _ _ (by omega), getD_setD_ne _ _ _ _ _ (by omega),
    getD_setD_ne _ _ _ _ _ (by omega), getD_setD_ne _ _ _ _ _ (by omega)]

theorem convert_getD_ge (y u v : Nat) (a : Array Nat) (off j d : Nat)
    (h : off + 4 ≤ j) :
    (convertYuvPixelToRgb y u v a off).getD j d = a.getD j d := by
  unfold convertYuvPixelToRgb
  rw [getD_setD_ne _ _ _ _ _ (by omega), getD_setD_ne _ _ _ _ _ (by omega),
    getD_setD_ne _ _ _ _ _ (by omega), getD_setD_ne _ _ _ _ _ (by omega)]

theorem convert_pixel (y u v : Nat) (a : Array Nat) (off : Nat)
    (h : off + 4 ≤ a.size) :
    (convertYuvPixelToRgb y u v a off).getD off 0 = (yuvPixel y u v).1 ∧
    (convertYuvPixelToRgb y u v a off).getD (off + 1) 0 = (yuvPixel y u v).2.1 ∧
    (convertYuvPixelToRgb y u v a off).getD (off + 2) 0 = (yuvPixel y u v).2.2.1 ∧
    (convertYuvPixelToRgb y u v a off).getD (off + 3) 0 = (yuvPixel y u v).2.2.2 := by
  unfold convertYuvPixelToRgb
  have s1 : ∀ w : Nat, (a.setD off w).size = a.size := by simp
  refine ⟨?_, ?_, ?_, ?_⟩
  · rw [getD_setD_ne _ _ _ _ _ (by omega), getD_setD_ne _ _ _ _ _ (by omega),
      getD_setD_ne _ _ _ _ _ (by omega), getD_setD_eq _ _ _ _ (by omega)]
    rfl
  · rw [getD_setD_ne _ _ _ _ _ (by omega), getD_setD_ne _ _ _ _ _ (by omega),
      getD_setD_eq _ _ _ _ (by simp; omega)]
    rfl
  · rw [getD_setD_ne _ _ _ _ _ (by omega),
      getD_setD_eq _ _ _ _ (by simp; omega)]
    rfl
  · rw [getD_setD_eq _ _ _ _ (by simp; omega)]
    rfl

/-- C1: the YUV→RGB transform writes exactly the BT.601 integer
approximation from the spec — `R = clamp8((298·(Y-16) + 409·(V-128) + 128) >> 8)`,
`G = clamp8((298·(Y-16) - 100·(U-128) - 208·(V-128) + 128) >> 8)`,
`B = clamp8((298·(Y-16) + 516·(U-128) + 128) >> 8)` — each component lies in
`[0, 255]`, and the alpha byte it stores is always `255`. -/
theorem convertYuvPixelToRgb_bt601 (y u v : Nat) (a : Array Nat) (off : Nat)
    (h : off + 4 ≤ a.size) :
    (convertYuvPixelToRgb y u v a off).getD off 0 =
      clamp8 (Int.fdiv (298 * ((y : Int) - 16) + 409 * ((v : Int) - 128) + 128) 256) ∧
    (convertYuvPixelToRgb y u v a off).getD (off + 1) 0 =
      clamp8 (Int.fdiv (298 * ((y : Int) - 16) - 100 * ((u : Int) - 128)
        - 208 * ((v : Int) - 128) + 128) 256) ∧
    (convertYuvPixelToRgb y u v a off).getD (off + 2) 0 =
      clamp8 (Int.fdiv (298 * ((y : Int) - 16) + 516 * ((u : Int) - 128) + 128) 256) ∧
    (∀ j, j < 3 → (convertYuvPixelToRgb y u v a off).getD (off + j) 0 ≤ 255) ∧
    (convertYuvPixelToRgb y u v a off).getD (off + 3) 0 = 255 := by
  obtain ⟨h0, h1, h2, h3⟩ := convert_pixel y u v a off h
  refine ⟨?_, ?_, ?_, ?_, ?_⟩
  · simpa [yuvPixel] using h0
  · simpa [yuvPixel] using h1
  · simpa [yuvPixel] using h2
  · intro j hj
    interval_cases j
    · simpa using h0.trans_le (by simpa [yuvPixel] using clamp8_le _)
    · simpa using h1.trans_le (by simpa [yuvPixel] using clamp8_le _)
    · simpa using h2.trans_le (by simpa [yuvPixel] using clamp8_le _)
  · simpa [yuvPixel] using h3

/-- Witness for C1 at the concrete input `(Y,U,V) = (235,128,128)`. -/
theorem convertYuvPixelToRgb_bt601_witness :
    (convertYuvPixelToRgb 235 128 128 (Array.mkArray 4 0) 0).getD 0 0 =
      clamp8 (Int.fdiv (298 * ((235 : Int) - 16) + 409 * ((128 : Int) - 128) + 128) 256) ∧
    (convertYuvPixelToRgb 235 128 128 (Array.mkArray 4 0) 0).getD 3 0 = 255 := by
  obtain ⟨h0, _, _, _, h4⟩ :=
    convertYuvPixelToRgb_bt601 235 128 128 (Array.mkArray 4 0) 0 (by simp)
  exact ⟨by simpa using h0, by simpa using h4⟩

/-- Byte `i` (0–3) of a 4-byte RGBA pixel tuple. -/
def pixByte (p : Nat × Nat × Nat × Nat) (i : Nat) : Nat :=
  match i with
  | 0 => p.1
  | 1 => p.2.1
  | 2 => p.2.2.1
  | _ => p.2.2.2

theorem convert_getD_at (y u v : Nat) (a : Array Nat) (off i : Nat)
    (hi : i < 4) (h : off + 4 ≤ a.size) :
    (convertYuvPixelToRgb y u v a off).getD (off + i) 0 =
      pixByte (yuvPixel y u v) i := by
  obtain ⟨h0, h1, h2, h3⟩ := convert_pixel y u v a off h
  interval_cases i
  · simpa using h0
  · exact h1
  · exact h2
  · exact h3

/-- The `for` loop of `uyvyToRgba` (`part_000` lines 95–106): while
iterations remain, stop if fewer than 4 input bytes are left (`break`),
otherwise read the group as `U,Y0,V,Y1` and emit the two pixels sharing
the chroma pair.  The first argument of the recursion counts the
remaining iterations of `for (let i = 0; i < numPixels/2; i++)`. -/
def uyvyLoop (buffer : Array Nat) : Nat → Array Nat → Nat → Nat → Array Nat
  | 0, rgba, _, _ => rgba
  | n + 1, rgba, ptr, outPtr =>
    if buffer.size ≤ ptr + 3 then rgba
    else
      -- u = buffer[ptr], y0 = buffer[ptr+1], v = buffer[ptr+2], y1 = buffer[ptr+3]
      uyvyLoop buffer n
        (convertYuvPixelToRgb (buffer.getD (ptr + 3) 0) (buffer.getD ptr 0)
          (buffer.getD (ptr + 2) 0)
          (convertYuvPixelToRgb (buffer.getD (ptr + 1) 0) (buffer.getD ptr 0)
            (buffer.getD (ptr + 2) 0) rgba outPtr) (outPtr + 4))
        (ptr + 4) (outPtr + 8)

/-- From `src/unnamed/part_000` lines 89–108, `uyvyToRgba`.  `numPixels/2` is a
JS float, so the loop admits `⌈numPixels/2⌉ = (numPixels+1)/2` iterations;
the output is `Buffer.alloc(numPixels*4)`, writes past its end being
dropped. -/
def uyvyToRgba (buffer : Array Nat) (width height : Nat) : Array Nat :=
  let numPixels := width * height
  uyvyLoop buffer ((numPixels + 1) / 2) (Array.mkArray (numPixels * 4) 0) 0 0

/-- The `for` loop of `yuy2ToRgba` (`part_000` lines 119–130): identical to
`uyvyLoop` except the group byte order is `Y0,U,Y1,V`. -/
def yuy2Loop (buffer : Array Nat) : Nat → Array Nat → Nat → Nat → Array Nat
  | 0, rgba, _, _ => rgba
  | n + 1, rgba, ptr, outPtr =>
    if buffer.size ≤ ptr + 3 then rgba
    else
      -- y0 = buffer[ptr], u = buffer[ptr+1], y1 = buffer[ptr+2], v = buffer[ptr+3]
      yuy2Loop buffer n
        (convertYuvPixelToRgb (buffer.getD (ptr + 2) 0) (buffer.getD (ptr + 1) 0)
          (buffer.getD (ptr + 3) 0)
          (convertYuvPixelToRgb (buffer.getD ptr 0) (buffer.getD (ptr + 1) 0)
            (buffer.getD (ptr + 3) 0) rgba outPtr) (outPtr + 4))
        (ptr + 4) (outPtr + 8)

/-- From `src/unnamed/part_000` lines 113–132, `yuy2ToRgba`. -/
def yuy2ToRgba (buffer : Array Nat) (width height : Nat) : Array Nat :=
  let numPixels := width * height
  yuy2Loop buffer ((numPixels + 1) / 2) (Array.mkArray (numPixels * 4) 0) 0 0

theorem uyvyLoop_size (buffer : Array Nat) (n : Nat) :
    ∀ rgba ptr outPtr, (uyvyLoop buffer n rgba ptr outPtr).size = rgba.size := by
  induction n with
  | zero => intro rgba ptr outPtr; rfl
  | succ n ih =>
    intro rgba ptr outPtr
    rw [uyvyLoop]
    split
    · rfl
    · rw [ih]
      simp [convert_size]

theorem yuy2Loop_size (buffer : Array Nat) (n : Nat) :
    ∀ rgba ptr outPtr, (yuy2Loop buffer n rgba ptr outPtr).size = rgba.size := by
  induction n with
  | zero => intro rgba ptr outPtr; rfl
  | succ n ih =>
    intro rgba ptr outPtr
    rw [yuy2Loop]
    split
    · rfl
    · rw [ih]
      simp [convert_size]

theorem uyvyLoop_getD_lt (buffer : Array Nat) (n : Nat) :
    ∀ rgba ptr outPtr j d, j < outPtr →
      (uyvyLoop buffer n rgba ptr outPtr).getD j d = rgba.getD j d := by
  induction n with
  | zero => intro rgba ptr outPtr j d _; rfl
  | succ n ih =>
    intro rgba ptr outPtr j d hj
    rw [uyvyLoop]
    split
    · rfl
    · rw [ih _ _ _ _ _ (by omega), convert_getD_lt _ _ _ _ _ _ _ (by omega),
        convert_getD_lt _ _ _ _ _ _ _ (by omega)]

theorem yuy2Loop_getD_lt (buffer : Array Nat) (n : Nat) :
    ∀ rgba ptr outPtr j d, j < outPtr →
      (yuy2Loop buffer n rgba ptr outPtr).getD j d = rgba.getD j d := by
  induction n with
  | zero => intro rgba ptr outPtr j d _; rfl
  | succ n ih =>
    intro rgba ptr outPtr j d hj
    rw [yuy2Loop]
    split
    · rfl
    · rw [ih _ _ _ _ _ (by omega), convert_getD_lt _ _ _ _ _ _ _ (by omega),
        convert_getD_lt _ _ _ _ _ _ _ (by omega)]

/-- After `k` groups the loop no longer touches bytes at or beyond
`outPtr + 8*k`, provided it stops within `k` groups (fuel exhausted or an
incomplete input group). -/
theorem uyvyLoop_getD_tail (buffer : Array Nat) (n : Nat) :
    ∀ rgba ptr outPtr k j d,
      (n ≤ k ∨ buffer.size ≤ ptr + 4 * k + 3) → outPtr + 8 * k ≤ j →
      (uyvyLoop buffer n rgba ptr outPtr).getD j d = rgba.getD j d := by
  induction n with
  | zero => intro rgba ptr outPtr k j d _ _; rfl
  | succ n ih =>
    intro rgba ptr outPtr k j d hstop hj
    rw [uyvyLoop]
    split
    · rfl
    · rename_i hbreak
      have hk : k ≠ 0 := by
        rintro rfl
        rcases hstop with h | h
        · omega
        · omega
      rw [ih _ _ _ (k - 1) _ _ (by omega) (by omega),
        convert_getD_ge _ _ _ _ _ _ _ (by omega),
        convert_getD_ge _ _ _ _ _ _ _ (by omega)]

theorem yuy2Loop_getD_tail (buffer : Array Nat) (n : Nat) :
    ∀ rgba ptr outPtr k j d,
      (n ≤ k ∨ buffer.size ≤ ptr + 4 * k + 3) → outPtr + 8 * k ≤ j →
      (yuy2Loop buffer n rgba ptr outPtr).getD j d = rgba.getD j d := by
  induction n with
  | zero => intro rgba ptr outPtr k j d _ _; rfl
  | succ n ih =>
    intro rgba ptr outPtr k j d hstop hj
    rw [yuy2Loop]
    split
    · rfl
    · rename_i hbreak
      have hk : k ≠ 0 := by
        rintro rfl
        rcases hstop with h | h
        · omega
        · omega
      rw [ih _ _ _ (k - 1) _ _ (by omega) (by omega),
        convert_getD_ge _ _ _ _ _ _ _ (by omega),
        convert_getD_ge _ _ _ _ _ _ _ (by omega)]

/-- Group `g` of the UYVY loop writes the two pixels decoded from bytes
`ptr+4g .. ptr+4g+3`, read in the order `U,Y0,V,Y1`. -/
theorem uyvyLoop_group (buffer : Array Nat) (n : Nat) :
    ∀ rgba ptr outPtr g i, g < n → i < 4 →
      ptr + 4 * g + 4 ≤ buffer.size → outPtr + 8 * g + 8 ≤ rgba.size →
      (uyvyLoop buffer n rgba ptr outPtr).getD (outPtr + 8 * g + i) 0 =
        pixByte (yuvPixel (buffer.getD (ptr + 4 * g + 1) 0)
          (buffer.getD (ptr + 4 * g) 0) (buffer.getD (ptr + 4 * g + 2) 0)) i ∧
      (uyvyLoop buffer n rgba ptr outPtr).getD (outPtr + 8 * g + 4 + i) 0 =
        pixByte (yuvPixel (buffer.getD (ptr + 4 * g + 3) 0)
          (buffer.getD (ptr + 4 * g) 0) (buffer.getD (ptr + 4 * g + 2) 0)) i := by
  induction n with
  | zero => intro rgba ptr outPtr g i hg; omega
  | succ n ih =>
    intro rgba ptr outPtr g i hg hi hin hout
    rw [uyvyLoop]
    split
    · rename_i hbreak; omega
    · rename_i hbreak
      rcases Nat.eq_zero_or_pos g with rfl | hgpos
      · constructor
        · rw [uyvyLoop_getD_lt _ _ _ _ _ _ _ (by omega),
            convert_getD_lt _ _ _ _ _ _ _ (by omega)]
          simpa using convert_getD_at _ _ _ rgba outPtr i hi (by omega)
        · rw [uyvyLoop_getD_lt _ _ _ _ _ _ _ (by omega)]
          have e0 : outPtr + 8 * 0 + 4 + i = outPtr + 4 + i := by ring
          have e1 : ptr + 4 * 0 + 3 = ptr + 3 := by ring
          have e2 : ptr + 4 * 0 = ptr := by ring
          have e3 : ptr + 4 * 0 + 2 = ptr + 2 := by ring
          rw [e0, e1, e2, e3]
          exact convert_getD_at (buffer.getD (ptr + 3) 0) (buffer.getD ptr 0)
            (buffer.getD (ptr + 2) 0)
            (convertYuvPixelToRgb (buffer.getD (ptr + 1) 0) (buffer.getD ptr 0)
              (buffer.getD (ptr + 2) 0) rgba outPtr) (outPtr + 4) i hi
            (by rw [convert_size]; omega)
      · obtain ⟨g', rfl⟩ : ∃ g', g = g' + 1 := ⟨g - 1, by omega⟩
        have := ih
          (convertYuvPixelToRgb (buffer.getD (ptr + 3) 0) (buffer.getD ptr 0)
            (buffer.getD (ptr + 2) 0)
            (convertYuvPixelToRgb (buffer.getD (ptr + 1) 0) (buffer.getD ptr 0)
              (buffer.getD (ptr + 2) 0) rgba outPtr) (outPtr + 4))
          (ptr + 4) (outPtr + 8) g' i (by omega) hi (by omega)
          (by simp [convert_size]; omega)
        constructor
        · have h1 := this.1
          have e1 : ptr + 4 + 4 * g' = ptr + 4 * (g' + 1) := by ring
          have e2 : outPtr + 8 + 8 * g' + i = outPtr + 8 * (g' + 1) + i := by ring
          rw [e1] at h1
          rw [← e2]
          exact h1
        · have h2 := this.2
          have e1 : ptr + 4 + 4 * g' = ptr + 4 * (g' + 1) := by ring
          have e2 : outPtr + 8 + 8 * g' + 4 + i = outPtr + 8 * (g' + 1) + 4 + i := by
            ring
          rw [e1] at h2
          rw [← e2]
          exact h2

/-- Group `g` of the YUY2 loop writes the two pixels decoded from bytes
`ptr+4g .. ptr+4g+3`, read in the order `Y0,U,Y1,V`. -/
theorem yuy2Loop_group (buffer : Array Nat) (n : Nat) :
    ∀ rgba ptr outPtr g i, g < n → i < 4 →
      ptr + 4 * g + 4 ≤ buffer.size → outPtr + 8 * g + 8 ≤ rgba.size →
      (yuy2Loop buffer n rgba ptr outPtr).getD (outPtr + 8 * g + i) 0 =
        pixByte (yuvPixel (buffer.getD (ptr + 4 * g) 0)
          (buffer.getD (ptr + 4 * g + 1) 0) (buffer.getD (ptr + 4 * g + 3) 0)) i ∧
      (yuy2Loop buffer n rgba ptr outPtr).getD (outPtr + 8 * g + 4 + i) 0 =
        pixByte (yuvPixel (buffer.getD (ptr + 4 * g + 2) 0)
          (buffer.getD (ptr + 4 * g + 1) 0) (buffer.getD (ptr + 4 * g + 3) 0)) i := by
  induction n with
  | zero => intro rgba ptr outPtr g i hg; omega
  | succ n ih =>
    intro rgba ptr outPtr g i hg hi hin hout
    rw [yuy2Loop]
    split
    · rename_i hbreak; omega
    · rename_i hbreak
      rcases Nat.eq_zero_or_pos g with rfl | hgpos
      · constructor
        · rw [yuy2Loop_getD_lt _ _ _ _ _ _ _ (by omega),
            convert_getD_lt _ _ _ _ _ _ _ (by omega)]
          simpa using convert_getD_at _ _ _ rgba outPtr i hi (by omega)
        · rw [yuy2Loop_getD_lt _ _ _ _ _ _ _ (by omega)]
          have e0 : outPtr + 8 * 0 + 4 + i = outPtr + 4 + i := by ring
          have e1 : ptr + 4 * 0 + 2 = ptr + 2 := by ring
          have e2 : ptr + 4 * 0 + 1 = ptr + 1 := by ring
          have e3 : ptr + 4 * 0 + 3 = ptr + 3 := by ring
          rw [e0, e1, e2, e3]
          exact convert_getD_at (buffer.getD (ptr + 2) 0) (buffer.getD (ptr + 1) 0)
            (buffer.getD (ptr + 3) 0)
            (convertYuvPixelToRgb (buffer.getD ptr 0) (buffer.getD (ptr + 1) 0)
              (buffer.getD (ptr + 3) 0) rgba outPtr) (outPtr + 4) i hi
            (by rw [convert_size]; omega)
      · obtain ⟨g', rfl⟩ : ∃ g', g = g' + 1 := ⟨g - 1, by omega⟩
        have := ih
          (convertYuvPixelToRgb (buffer.getD (ptr + 2) 0) (buffer.getD (ptr + 1) 0)
            (buffer.getD (ptr + 3) 0)
            (convertYuvPixelToRgb (buffer.getD ptr 0) (buffer.getD (ptr + 1) 0)
              (buffer.getD (ptr + 3) 0) rgba outPtr) (outPtr + 4))
          (ptr + 4) (outPtr + 8) g' i (by omega) hi (by omega)
          (by simp [convert_size]; omega)
        constructor
        · have h1 := this.1
          have e1 : ptr + 4 + 4 * g' = ptr + 4 * (g' + 1) := by ring
          have e2 : outPtr + 8 + 8 * g' + i = outPtr + 8 * (g' + 1) + i := by ring
          rw [e1] at h1
          rw [← e2]
          exact h1
        · have h2 := this.2
          have e1 : ptr + 4 + 4 * g' = ptr + 4 * (g' + 1) := by ring
          have e2 : outPtr + 8 + 8 * g' + 4 + i = outPtr + 8 * (g' + 1) + 4 + i := by
            ring
          rw [e1] at h2
          rw [← e2]
          exact h2

theorem pixelAt_eq (a : Array Nat) (p : Nat) (q : Nat × Nat × Nat × Nat)
    (h0 : a.getD (4 * p) 0 = pixByte q 0) (h1 : a.getD (4 * p + 1) 0 = pixByte q 1)
    (h2 : a.getD (4 * p + 2) 0 = pixByte q 2)
    (h3 : a.getD (4 * p + 3) 0 = pixByte q 3) :
    pixelAt a p = q := by
  obtain ⟨q0, q1, q2, q3⟩ := q
  simp [pixByte] at h0 h1 h2 h3
  simp [pixelAt, h0, h1, h2, h3]

theorem uyvyToRgba_size (buffer : Array Nat) (w h : Nat) :
    (uyvyToRgba buffer w h).size = w * h * 4 := by
  simp [uyvyToRgba, uyvyLoop_size]

theorem yuy2ToRgba_size (buffer : Array Nat) (w h : Nat) :
    (yuy2ToRgba buffer w h).size = w * h * 4 := by
  simp [yuy2ToRgba, yuy2Loop_size]

/-- C4: the packed 4:2:2 decoders consume 4-byte input groups, group `g`
producing exactly the two consecutive output pixels `2g` and `2g+1`,
which share the group's chroma pair and differ only in luma; UYVY reads
the group as `U,Y0,V,Y1`, YUY2 reads it as `Y0,U,Y1,V`. -/
theorem packed422_pair_decode (buffer : Array Nat) (w h g : Nat)
    (hbuf : 4 * g + 4 ≤ buffer.size) (hpix : 2 * g + 1 < w * h) :
    pixelAt (uyvyToRgba buffer w h) (2 * g) =
      yuvPixel (buffer.getD (4 * g + 1) 0) (buffer.getD (4 * g) 0)
        (buffer.getD (4 * g + 2) 0) ∧
    pixelAt (uyvyToRgba buffer w h) (2 * g + 1) =
      yuvPixel (buffer.getD (4 * g + 3) 0) (buffer.getD (4 * g) 0)
        (buffer.getD (4 * g + 2) 0) ∧
    pixelAt (yuy2ToRgba buffer w h) (2 * g) =
      yuvPixel (buffer.getD (4 * g) 0) (buffer.getD (4 * g + 1) 0)
        (buffer.getD (4 * g + 3) 0) ∧
    pixelAt (yuy2ToRgba buffer w h) (2 * g + 1) =
      yuvPixel (buffer.getD (4 * g + 2) 0) (buffer.getD (4 * g + 1) 0)
        (buffer.getD (4 * g + 3) 0) := by
  have hn : g < (w * h + 1) / 2 := by omega
  have hout : 0 + 8 * g + 8 ≤ (Array.mkArray (w * h * 4) (0 : Nat)).size := by
    simp
    omega
  have hbuf' : 0 + 4 * g + 4 ≤ buffer.size := by omega
  have hu := fun i hi => uyvyLoop_group buffer ((w * h + 1) / 2)
    (Array.mkArray (w * h * 4) 0) 0 0 g i hn hi hbuf' hout
  have hy := fun i hi => yuy2Loop_group buffer ((w * h + 1) / 2)
    (Array.mkArray (w * h * 4) 0) 0 0 g i hn hi hbuf' hout
  have e1 : (4 : Nat) * (2 * g) = 8 * g := by ring
  have e2 : (4 : Nat) * (2 * g + 1) = 8 * g + 4 := by ring
  refine ⟨?_, ?_, ?_, ?_⟩
  · refine pixelAt_eq _ _ _ ?_ ?_ ?_ ?_
    · simpa [uyvyToRgba, e1] using (hu 0 (by omega)).1
    · simpa [uyvyToRgba, e1] using (hu 1 (by omega)).1
    · simpa [uyvyToRgba, e1] using (hu 2 (by omega)).1
    · simpa [uyvyToRgba, e1] using (hu 3 (by omega)).1
  · refine pixelAt_eq _ _ _ ?_ ?_ ?_ ?_
    · simpa [uyvyToRgba, e2] using (hu 0 (by omega)).2
    · simpa [uyvyToRgba, e2] using (hu 1 (by omega)).2
    · simpa [uyvyToRgba, e2] using (hu 2 (by omega)).2
    · simpa [uyvyToRgba, e2] using (hu 3 (by omega)).2
  · refine pixelAt_eq _ _ _ ?_ ?_ ?_ ?_
    · simpa [yuy2ToRgba, e1] using (hy 0 (by omega)).1
    · simpa [yuy2ToRgba, e1] using (hy 1 (by omega)).1
    · simpa [yuy2ToRgba, e1] using (hy 2 (by omega)).1
    · simpa [yuy2ToRgba, e1] using (hy 3 (by omega)).1
  · refine pixelAt_eq _ _ _ ?_ ?_ ?_ ?_
    · simpa [yuy2ToRgba, e2] using (hy 0 (by omega)).2
    · simpa [yuy2ToRgba, e2] using (hy 1 (by omega)).2
    · simpa [yuy2ToRgba, e2] using (hy 2 (by omega)).2
    · simpa [yuy2ToRgba, e2] using (hy 3 (by omega)).2

/-- Witness for C4 at the 4-byte buffer `#[10,20,30,40]`, one group,
a 2×1 image. -/
theorem packed422_pair_decode_witness :
    4 * 0 + 4 ≤ (#[10, 20, 30, 40] : Array Nat).size ∧
    2 * 0 + 1 < 2 * 1 ∧
    pixelAt (uyvyToRgba #[10, 20, 30, 40] 2 1) (2 * 0) =
      yuvPixel ((#[10, 20, 30, 40] : Array Nat).getD (4 * 0 + 1) 0)
        ((#[10, 20, 30, 40] : Array Nat).getD (4 * 0) 0)
        ((#[10, 20, 30, 40] : Array Nat).getD (4 * 0 + 2) 0) ∧
    pixelAt (yuy2ToRgba #[10, 20, 30, 40] 2 1) (2 * 0 + 1) =
      yuvPixel ((#[10, 20, 30, 40] : Array Nat).getD (4 * 0 + 2) 0)
        ((#[10, 20, 30, 40] : Array Nat).getD (4 * 0 + 1) 0)
        ((#[10, 20, 30, 40] : Array Nat).getD (4 * 0 + 3) 0) := by
  have h := packed422_pair_decode #[10, 20, 30, 40] 2 1 0 (by decide) (by decide)
  exact ⟨by decide, by decide, h.1, h.2.2.2⟩

/-- Inner (column) loop of `nv21ToRgba` (`part_000` lines 149–167), for row
`y`, starting at column `x` with `n` columns left.  Per source:
`yVal = (yIndex < ySize) ? buffer[yIndex] : 0`;
`uvIndex = ySize + ⌊y/2⌋*width + ⌊x/2⌋*2`; the chroma pair is
`(vVal, uVal) = (buffer[uvIndex], buffer[uvIndex+1])` when `uvIndex+1` is in
range, else `(128,128)`; the pixel is written at `yIndex*4`.
(When the luma read is out of range in JS the `undefined`/`NaN` arithmetic
stores bytes `(0,0,0,255)`; that only happens when the chroma guard also
fails, and `getD _ 0` with neutral chroma produces exactly `(0,0,0,255)`
there, so this total model agrees byte-for-byte with the source.) -/
def nv21Cols (buffer : Array Nat) (width ySize y : Nat) :
    Nat → Nat → Array Nat → Array Nat
  | _, 0, rgba => rgba
  | x, n + 1, rgba =>
    nv21Cols buffer width ySize y (x + 1) n
      (convertYuvPixelToRgb
        (if y * width + x < ySize then buffer.getD (y * width + x) 0 else 0)
        (if ySize + y / 2 * width + x / 2 * 2 + 1 < buffer.size
          then buffer.getD (ySize + y / 2 * width + x / 2 * 2 + 1) 0 else 128)
        (if ySize + y / 2 * width + x / 2 * 2 + 1 < buffer.size
          then buffer.getD (ySize + y / 2 * width + x / 2 * 2) 0 else 128)
        rgba ((y * width + x) * 4))

/-- Outer (row) loop of `nv21ToRgba`, starting at row `y` with `m` rows
left. -/
def nv21Rows (buffer : Array Nat) (width ySize : Nat) :
    Nat → Nat → Array Nat → Array Nat
  | _, 0, rgba => rgba
  | y, m + 1, rgba =>
    nv21Rows buffer width ySize (y + 1) m
      (nv21Cols buffer width ySize y 0 width rgba)

/-- From `src/unnamed/part_000` lines 137–170, `nv21ToRgba`: Y plane in the
first `width*height` bytes, interleaved `V,U` plane after it, output
`Buffer.alloc(numPixels*4)`. -/
def nv21ToRgba (buffer : Array Nat) (width height : Nat) : Array Nat :=
  nv21Rows buffer width (width * height) 0 height
    (Array.mkArray (width * height * 4) 0)

theorem nv21Cols_size (buffer : Array Nat) (width ySize y : Nat) (n : Nat) :
    ∀ x rgba, (nv21Cols buffer width ySize y x n rgba).size = rgba.size := by
  induction n with
  | zero => intro x rgba; rfl
  | succ n ih =>
    intro x rgba
    rw [nv21Cols, ih]
    exact convert_size _ _ _ _ _

theorem nv21Rows_size (buffer : Array Nat) (width ySize : Nat) (m : Nat) :
    ∀ y rgba, (nv21Rows buffer width ySize y m rgba).size = rgba.size := by
  induction m with
  | zero => intro y rgba; rfl
  | succ m ih =>
    intro y rgba
    rw [nv21Rows, ih, nv21Cols_size]

theorem nv21ToRgba_size (buffer : Array Nat) (w h : Nat) :
    (nv21ToRgba buffer w h).size = w * h * 4 := by
  rw [nv21ToRgba, nv21Rows_size]
  simp

theorem nv21Cols_getD_lt (buffer : Array Nat) (width ySize y : Nat) (n : Nat) :
    ∀ x rgba j d, j < (y * width + x) * 4 →
      (nv21Cols buffer width ySize y x n rgba).getD j d = rgba.getD j d := by
  induction n with
  | zero => intro x rgba j d _; rfl
  | succ n ih =>
    intro x rgba j d hj
    rw [nv21Cols, ih _ _ _ _ (by omega), convert_getD_lt _ _ _ _ _ _ _ (by omega)]

theorem nv21Rows_getD_lt (buffer : Array Nat) (width ySize : Nat) (m : Nat) :
    ∀ y rgba j d, j < y * width * 4 →
      (nv21Rows buffer width ySize y m rgba).getD j d = rgba.getD j d := by
  induction m with
  | zero => intro y rgba j d _; rfl
  | succ m ih =>
    intro y rgba j d hj
    have hy1 : j < (y + 1) * width * 4 := by
      have : y * width ≤ (y + 1) * width := Nat.mul_le_mul_right width (by omega)
      omega
    rw [nv21Rows, ih _ _ _ _ hy1]
    have : j < (y * width + 0) * 4 := by omega
    exact nv21Cols_getD_lt buffer width ySize y width 0 rgba j d this

theorem nv21Cols_at (buffer : Array Nat) (width ySize y : Nat) (n : Nat) :
    ∀ x rgba c i, x ≤ c → c < x + n → i < 4 →
      (y * width + c) * 4 + 4 ≤ rgba.size →
      (nv21Cols buffer width ySize y x n rgba).getD ((y * width + c) * 4 + i) 0 =
        pixByte (yuvPixel
          (if y * width + c < ySize then buffer.getD (y * width + c) 0 else 0)
          (if ySize + y / 2 * width + c / 2 * 2 + 1 < buffer.size
            then buffer.getD (ySize + y / 2 * width + c / 2 * 2 + 1) 0 else 128)
          (if ySize + y / 2 * width + c / 2 * 2 + 1 < buffer.size
            then buffer.getD (ySize + y / 2 * width + c / 2 * 2) 0 else 128)) i := by
  induction n with
  | zero => intro x rgba c i hxc hcx; omega
  | succ n ih =>
    intro x rgba c i hxc hcx hi hsz
    rw [nv21Cols]
    rcases Nat.eq_or_lt_of_le hxc with rfl | hlt
    · rw [nv21Cols_getD_lt _ _ _ _ _ _ _ _ _ (by omega)]
      exact convert_getD_at _ _ _ _ _ i hi (by omega)
    · rw [ih (x + 1) _ c i (by omega) (by omega) hi (by rw [convert_size]; exact hsz)]

theorem nv21Rows_at (buffer : Array Nat) (width ySize : Nat) (m : Nat) :
    ∀ y rgba r c i, y ≤ r → r < y + m → c < width → i < 4 →
      (r * width + c) * 4 + 4 ≤ rgba.size →
      (nv21Rows buffer width ySize y m rgba).getD ((r * width + c) * 4 + i) 0 =
        pixByte (yuvPixel
          (if r * width + c < ySize then buffer.getD (r * width + c) 0 else 0)
          (if ySize + r / 2 * width + c / 2 * 2 + 1 < buffer.size
            then buffer.getD (ySize + r / 2 * width + c / 2 * 2 + 1) 0 else 128)
          (if ySize + r / 2 * width + c / 2 * 2 + 1 < buffer.size
            then buffer.getD (ySize + r / 2 * width + c / 2 * 2) 0 else 128)) i := by
  induction m with
  | zero => intro y rgba r c i hyr hry; omega
  | succ m ih =>
    intro y rgba r c i hyr hry hc hi hsz
    rw [nv21Rows]
    rcases Nat.eq_or_lt_of_le hyr with rfl | hlt
    · have hupper : (y * width + c) * 4 + i < (y + 1) * width * 4 := by
        have h1 : y * width + c + 1 ≤ y * width + width := by omega
        have h2 : (y + 1) * width = y * width + width := by ring
        omega
      rw [nv21Rows_getD_lt _ _ _ _ _ _ _ _ hupper]
      exact nv21Cols_at buffer width ySize y width 0 rgba c i (Nat.zero_le c)
        (by omega) hi hsz
    · exact ih (y + 1) _ r c i (by omega) (by omega) hc hi
        (by rw [nv21Cols_size]; exact hsz)

theorem pixelAt_eq' (a : Array Nat) (p : Nat) (q : Nat × Nat × Nat × Nat)
    (h0 : a.getD (p * 4) 0 = pixByte q 0) (h1 : a.getD (p * 4 + 1) 0 = pixByte q 1)
    (h2 : a.getD (p * 4 + 2) 0 = pixByte q 2)
    (h3 : a.getD (p * 4 + 3) 0 = pixByte q 3) :
    pixelAt a p = q := by
  refine pixelAt_eq a p q ?_ ?_ ?_ ?_ <;> rw [Nat.mul_comm 4 p] <;> assumption

theorem grid_index_lt (row col w h : Nat) (hrow : row < h) (hcol : col < w) :
    row * w + col < w * h := by
  calc row * w + col < row * w + w := by omega
    _ = (row + 1) * w := by ring
    _ ≤ h * w := Nat.mul_le_mul_right w hrow
    _ = w * h := Nat.mul_comm h w

/-- C5: the NV21 decoder reads the luma of pixel `(row, col)` at index
`row*width + col` (which always lies within the first `width*height`
bytes), and its chroma pair at
`uvIndex = width*height + ⌊row/2⌋*width + ⌊col/2⌋*2` in the order `(V, U)`;
when `uvIndex + 1` is not a valid index the chroma pair defaults to
`(128, 128)`; and the `uvIndex` formula is constant on each 2×2 luma
block, so all four pixels of a block share one chroma pair. -/
theorem nv21_chroma_addressing (buffer : Array Nat) (w h row col : Nat)
    (hrow : row < h) (hcol : col < w) :
    row * w + col < w * h ∧
    pixelAt (nv21ToRgba buffer w h) (row * w + col) =
      yuvPixel (buffer.getD (row * w + col) 0)
        (if w * h + row / 2 * w + col / 2 * 2 + 1 < buffer.size
          then buffer.getD (w * h + row / 2 * w + col / 2 * 2 + 1) 0 else 128)
        (if w * h + row / 2 * w + col / 2 * 2 + 1 < buffer.size
          then buffer.getD (w * h + row / 2 * w + col / 2 * 2) 0 else 128) ∧
    (∀ row' col', row' / 2 = row / 2 → col' / 2 = col / 2 →
      w * h + row' / 2 * w + col' / 2 * 2 =
        w * h + row / 2 * w + col / 2 * 2) := by
  have hidx : row * w + col < w * h := grid_index_lt row col w h hrow hcol
  refine ⟨hidx, ?_, ?_⟩
  · have hsz : (row * w + col) * 4 + 4 ≤
        (Array.mkArray (w * h * 4) (0 : Nat)).size := by
      simp
      omega
    have hb := fun i hi => nv21Rows_at buffer w (w * h) h 0
      (Array.mkArray (w * h * 4) 0) row col i (Nat.zero_le row) (by omega)
      hcol hi hsz
    refine pixelAt_eq' _ _ _ ?_ ?_ ?_ ?_
    · have h0 := hb 0 (by omega)
      rw [if_pos hidx] at h0
      exact h0
    · have h1 := hb 1 (by omega)
      rw [if_pos hidx] at h1
      exact h1
    · have h2 := hb 2 (by omega)
      rw [if_pos hidx] at h2
      exact h2
    · have h3 := hb 3 (by omega)
      rw [if_pos hidx] at h3
      exact h3
  · intro row' col' hr hc
    rw [hr, hc]

/-- Witness for C5: a 4×4 NV21 buffer with distinct luma bytes `0..15` and
distinct chroma bytes `100..107`; pixel `(1,2)` reads luma index `6` and
the chroma pair at `uvIndex = 16 + 0*4 + 1*2 = 18`, i.e. `(V,U) = (102,103)`. -/
theorem nv21_chroma_addressing_witness :
    1 * 4 + 2 < 4 * 4 ∧
    pixelAt (nv21ToRgba
      #[0, 1, 2, 3, 4, 5, 6, 7, 8, 9, 10, 11, 12, 13, 14, 15,
        100, 101, 102, 103, 104, 105, 106, 107] 4 4) (1 * 4 + 2) =
      yuvPixel 6 103 102 := by
  obtain ⟨h1, h2, _⟩ := nv21_chroma_addressing
    #[0, 1, 2, 3, 4, 5, 6, 7, 8, 9, 10, 11, 12, 13, 14, 15,
      100, 101, 102, 103, 104, 105, 106, 107] 4 4 1 2 (by decide) (by decide)
  refine ⟨h1, ?_⟩
  rw [h2]
  decide

/-- C7: on an input shorter than `width*height*2` bytes the packed 4:2:2
decoders do not fail: they stop at the first incomplete 4-byte group (group
`⌊size/4⌋`), still return the full-size `width*height*4` canonical buffer,
and every byte from the first undecoded pixel pair onwards keeps its
zero-initialized default. -/
theorem packed422_truncation_graceful (buffer : Array Nat) (w h : Nat)
    (hshort : buffer.size < w * h * 2) :
    (uyvyToRgba buffer w h).size = w * h * 4 ∧
    (yuy2ToRgba buffer w h).size = w * h * 4 ∧
    (∀ j, 8 * (buffer.size / 4) ≤ j → (uyvyToRgba buffer w h).getD j 0 = 0) ∧
    (∀ j, 8 * (buffer.size / 4) ≤ j → (yuy2ToRgba buffer w h).getD j 0 = 0) := by
  refine ⟨uyvyToRgba_size buffer w h, yuy2ToRgba_size buffer w h, ?_, ?_⟩
  · intro j hj
    have := uyvyLoop_getD_tail buffer ((w * h + 1) / 2)
      (Array.mkArray (w * h * 4) 0) 0 0 (buffer.size / 4) j 0
      (Or.inr (by omega)) (by omega)
    rw [uyvyToRgba]
    rw [this, getD_mkArray_zero]
  · intro j hj
    have := yuy2Loop_getD_tail buffer ((w * h + 1) / 2)
      (Array.mkArray (w * h * 4) 0) 0 0 (buffer.size / 4) j 0
      (Or.inr (by omega)) (by omega)
    rw [yuy2ToRgba]
    rw [this, getD_mkArray_zero]

/-- Witness for C7: a 2×2 UYVY image missing its final 2 bytes (6 of 8):
full-size 16-byte output, and the whole last pixel pair (bytes 8–15) is
zero. -/
theorem packed422_truncation_graceful_witness :
    (#[1, 2, 3, 4, 5, 6] : Array Nat).size < 2 * 2 * 2 ∧
    (uyvyToRgba #[1, 2, 3, 4, 5, 6] 2 2).size = 2 * 2 * 4 ∧
    (uyvyToRgba #[1, 2, 3, 4, 5, 6] 2 2).getD 8 0 = 0 ∧
    (uyvyToRgba #[1, 2, 3, 4, 5, 6] 2 2).getD 15 0 = 0 := by
  have hc := packed422_truncation_graceful #[1, 2, 3, 4, 5, 6] 2 2 (by decide)
  exact ⟨by decide, hc.1, hc.2.2.1 8 (by decide), hc.2.2.1 15 (by decide)⟩

/-- The `for (let i = 0; i < len; i += 4)` red/blue swap of the `bgra`
branch (`part_000` lines 260–265), running on the copy made by
`Buffer.from(buffer)`: each step reads `b = a[i]`, `r = a[i+2]` and writes
`a[i] = r`, `a[i+2] = b`.  Out-of-range reads on a trailing partial group
store `0` (JS `undefined` → `NaN` → byte `0`) and out-of-range writes are
dropped, which is `getD _ 0` / `setD`.  The first `Nat` is the loop
counter `i`, the second is the remaining-iteration fuel. -/
def swapLoop4 : Array Nat → Nat → Nat → Array Nat
  | a, _, 0 => a
  | a, i, fuel + 1 =>
    if i < a.size then
      swapLoop4 ((a.setD i (a.getD (i + 2) 0)).setD (i + 2) (a.getD i 0)) (i + 4) fuel
    else a

def bgraSwapped (buffer : Array Nat) : Array Nat := swapLoop4 buffer 0 buffer.size

/-- The `bgr` branch swap (`part_000` lines 274–282): same, but step 3
and only below `limit = ⌊len/3⌋*3`, so every access is in bounds. -/
def swapLoop3 (limit : Nat) : Array Nat → Nat → Nat → Array Nat
  | a, _, 0 => a
  | a, i, fuel + 1 =>
    if i < limit then
      swapLoop3 limit ((a.setD i (a.getD (i + 2) 0)).setD (i + 2) (a.getD i 0))
        (i + 3) fuel
    else a

def bgrSwapped (buffer : Array Nat) : Array Nat :=
  swapLoop3 (buffer.size / 3 * 3) buffer 0 buffer.size

theorem swapLoop4_size (fuel : Nat) :
    ∀ a i, (swapLoop4 a i fuel).size = a.size := by
  induction fuel with
  | zero => intro a i; rfl
  | succ fuel ih =>
    intro a i
    rw [swapLoop4]
    split
    · rw [ih]
      simp
    · rfl

theorem swapLoop3_size (limit fuel : Nat) :
    ∀ a i, (swapLoop3 limit a i fuel).size = a.size := by
  induction fuel with
  | zero => intro a i; rfl
  | succ fuel ih =>
    intro a i
    rw [swapLoop3]
    split
    · rw [ih]
      simp
    · rfl

theorem bgraSwapped_size (buffer : Array Nat) :
    (bgraSwapped buffer).size = buffer.size := swapLoop4_size _ _ _

theorem bgrSwapped_size (buffer : Array Nat) :
    (bgrSwapped buffer).size = buffer.size := swapLoop3_size _ _ _ _

/-- Result of one arm of the raw `pixelFormat` switch: the produced buffer,
its channel count (`isThreeChannel` in the source), the caller's input
buffer as it stands after the call, and whether the returned buffer is a
newly allocated object rather than the caller's own buffer. -/
structure RawSwitchResult where
  output : Array Nat
  channels : Nat
  inputAfter : Array Nat
  freshOutput : Bool

/-- ASCII lower-casing of one character, as JS `toLowerCase` acts on the
format-name strings used here. -/
def lowerChar (c : Char) : Char :=
  if 'A' ≤ c ∧ c ≤ 'Z' then Char.ofNat (c.toNat + 32) else c

/-- JS `String.prototype.toLowerCase` restricted to ASCII, executable in
the kernel. -/
def toLowerAscii (s : String) : String := String.mk (s.data.map lowerChar)

/-- From `src/unnamed/part_000` lines 245–289, the `switch
(pixelFormat.toLowerCase())` over the raw decode paths.  The `uyvy` and
`yuy2` cases share one arm calling `uyvyToRgba` (fall-through in the
source); `rgba`/`rgb` are the passthroughs `rgbaBuffer = buffer`
(`freshOutput = false`: the source returns the caller's buffer object
itself); `bgra`/`bgr` swap red/blue on a `Buffer.from` copy; unknown
formats warn and fall back to UYVY.  `inputAfter` is `buffer` in every
arm because the source only ever writes into freshly made copies. -/
def pixelFormatSwitch (pixelFormat : String) (buffer : Array Nat)
    (width height : Nat) : RawSwitchResult :=
  if toLowerAscii pixelFormat == "uyvy" || toLowerAscii pixelFormat == "yuy2" then
    ⟨uyvyToRgba buffer width height, 4, buffer, true⟩
  else if toLowerAscii pixelFormat == "nv21" then
    ⟨nv21ToRgba buffer width height, 4, buffer, true⟩
  else if toLowerAscii pixelFormat == "rgba" then
    ⟨buffer, 4, buffer, false⟩
  else if toLowerAscii pixelFormat == "bgra" then
    ⟨bgraSwapped buffer, 4, buffer, true⟩
  else if toLowerAscii pixelFormat == "rgb" then
    ⟨buffer, 3, buffer, false⟩
  else if toLowerAscii pixelFormat == "bgr" then
    ⟨bgrSwapped buffer, 3, buffer, true⟩
  else
    ⟨uyvyToRgba buffer width height, 4, buffer, true⟩

/-- C6 counterexample: the claim demands output length
`width*height*channelCount` "independent of the input buffer's length",
but the BGRA32 path returns a buffer of the input's length — decoding an
empty buffer as 1×1 BGRA yields 0 bytes, not `1*1*4`. -/
theorem canonical_size_counterexample :
    (pixelFormatSwitch "bgra" (#[] : Array Nat) 1 1).output.size = 0 ∧
    (0 : Nat) ≠ 1 * 1 * 4 := by
  constructor
  · rfl
  · decide

/-- C6 amended: the UYVY, YUY2 and NV21 decoders return exactly
`width*height*4` bytes whatever the input length; the BGRA32/BGR24 swap
paths and the RGBA32/RGB24 passthroughs return a buffer of exactly the
input's length, hence of length `width*height*channelCount` precisely when
the input already has that exact size. -/
theorem canonical_size_amended (buffer : Array Nat) (w h : Nat) :
    (uyvyToRgba buffer w h).size = w * h * 4 ∧
    (yuy2ToRgba buffer w h).size = w * h * 4 ∧
    (nv21ToRgba buffer w h).size = w * h * 4 ∧
    (bgraSwapped buffer).size = buffer.size ∧
    (bgrSwapped buffer).size = buffer.size ∧
    (buffer.size = w * h * 4 →
      (pixelFormatSwitch "rgba" buffer w h).output.size = w * h * 4 ∧
      (pixelFormatSwitch "bgra" buffer w h).output.size = w * h * 4) ∧
    (buffer.size = w * h * 3 →
      (pixelFormatSwitch "rgb" buffer w h).output.size = w * h * 3 ∧
      (pixelFormatSwitch "bgr" buffer w h).output.size = w * h * 3) := by
  refine ⟨uyvyToRgba_size buffer w h, yuy2ToRgba_size buffer w h,
    nv21ToRgba_size buffer w h, bgraSwapped_size buffer, bgrSwapped_size buffer,
    ?_, ?_⟩
  · intro hsz
    constructor
    · exact hsz
    · show (bgraSwapped buffer).size = w * h * 4
      rw [bgraSwapped_size]
      exact hsz
  · intro hsz
    constructor
    · exact hsz
    · show (bgrSwapped buffer).size = w * h * 3
      rw [bgrSwapped_size]
      exact hsz

/-- Witness for the amended C6 on a concrete 1×1 BGRA input of exactly
4 bytes. -/
theorem canonical_size_amended_witness :
    (#[9, 8, 7, 6] : Array Nat).size = 1 * 1 * 4 ∧
    (pixelFormatSwitch "bgra" #[9, 8, 7, 6] 1 1).output.size = 1 * 1 * 4 := by
  have hc := canonical_size_amended #[9, 8, 7, 6] 1 1
  exact ⟨by decide, (hc.2.2.2.2.2.1 (by decide)).2⟩

/-- C10 counterexample: the RGBA32 path is the passthrough
`rgbaBuffer = buffer` — the returned canonical buffer is the caller's own
input buffer object, not a freshly allocated one. -/
theorem decode_fresh_output_counterexample :
    (pixelFormatSwitch "rgba" #[1, 2, 3, 4] 1 1).freshOutput = false ∧
    (pixelFormatSwitch "rgba" #[1, 2, 3, 4] 1 1).output = #[1, 2, 3, 4] := by
  constructor
  · rfl
  · rfl

/-- C10 amended: no raw decode path mutates the caller's input buffer (the
BGRA32/BGR24 red↔blue swaps run on a `Buffer.from` copy), and the returned
buffer is freshly allocated on every path except the RGBA32 and RGB24
passthroughs, which return the caller's buffer itself. -/
theorem decode_no_input_mutation (pf : String) (buffer : Array Nat) (w h : Nat) :
    (pixelFormatSwitch pf buffer w h).inputAfter = buffer ∧
    ((pixelFormatSwitch pf buffer w h).freshOutput = false ↔
      toLowerAscii pf = "rgba" ∨ toLowerAscii pf = "rgb") := by
  unfold pixelFormatSwitch
  split_ifs with h1 h2 h3 h4 h5 h6
  · refine ⟨rfl, ?_⟩
    simp only [Bool.or_eq_true, beq_iff_eq] at h1
    rcases h1 with h | h <;> simp [h]
  · refine ⟨rfl, ?_⟩
    simp only [beq_iff_eq] at h2
    simp [h2]
  · refine ⟨rfl, ?_⟩
    simp only [beq_iff_eq] at h3
    simp [h3]
  · refine ⟨rfl, ?_⟩
    simp only [beq_iff_eq] at h4
    simp [h4]
  · refine ⟨rfl, ?_⟩
    simp only [beq_iff_eq] at h5
    simp [h5]
  · refine ⟨rfl, ?_⟩
    simp only [beq_iff_eq] at h6
    simp [h6]
  · refine ⟨rfl, ?_⟩
    simp only [beq_iff_eq, Bool.or_eq_true] at h1 h3 h5
    simp only [Bool.false_eq_true, false_iff]
    rintro (h | h)
    · exact h3 h
    · exact h5 h

/-- From `src/unnamed/part_000` lines 316–320: scan of the decoded
`(A,B,G,R)`-per-pixel array for the maximum alpha byte (`rawData[i]` of
each 4-byte group; `if (rawData[i] > maxAlpha) maxAlpha = rawData[i]` is a
fold with `max`). -/
def bmpMaxAlpha (px : List (Nat × Nat × Nat × Nat)) : Nat :=
  px.foldl (fun m q => max m q.1) 0

/-- From `src/unnamed/part_000` lines 320–333: `forceOpaque = (maxAlpha === 0)`,
then each `(A,B,G,R)` group is rewritten to `(R,G,B,A')` with
`A' = forceOpaque ? 255 : A`. -/
def bmpDecodePixels (px : List (Nat × Nat × Nat × Nat)) :
    List (Nat × Nat × Nat × Nat) :=
  px.map (fun q =>
    (q.2.2.2, q.2.2.1, q.2.1, if bmpMaxAlpha px = 0 then 255 else q.1))

/-- From `src/unnamed/part_000` lines 515–526 (the `bmp` output branch of
`/api/process`): each canonical `(R,G,B,A)` group is rewritten to
`(A,B,G,R)` for `bmp.encode`. -/
def bmpEncodePixels (px : List (Nat × Nat × Nat × Nat)) :
    List (Nat × Nat × Nat × Nat) :=
  px.map (fun q => (q.2.2.2, q.2.2.1, q.2.1, q.1))

theorem bmpMaxAlpha_general (px : List (Nat × Nat × Nat × Nat)) :
    ∀ m, px.foldl (fun m q => max m q.1) m = 0 ↔ (m = 0 ∧ ∀ q ∈ px, q.1 = 0) := by
  induction px with
  | nil => intro m; simp
  | cons q t ih =>
    intro m
    rw [List.foldl_cons, ih]
    simp only [List.mem_cons]
    constructor
    · rintro ⟨hm, ht⟩
      refine ⟨by omega, ?_⟩
      rintro p (rfl | hp)
      · omega
      · exact ht p hp
    · rintro ⟨hm, hall⟩
      refine ⟨?_, fun p hp => hall p (Or.inr hp)⟩
      have hq := hall q (Or.inl rfl)
      omega

theorem bmpMaxAlpha_zero_iff (px : List (Nat × Nat × Nat × Nat)) :
    bmpMaxAlpha px = 0 ↔ ∀ q ∈ px, q.1 = 0 := by
  unfold bmpMaxAlpha
  rw [bmpMaxAlpha_general]
  simp

/-- C2: decoding the legacy bitmap's `(A,B,G,R)` pixel array transcribes
R, G and B unchanged from byte positions 3, 2, 1 of each group; if the
maximum decoded alpha is exactly 0 (equivalently: every alpha byte is 0)
every output alpha is forced to 255, otherwise every alpha byte is copied
verbatim. -/
theorem bmp_decode_alpha_heuristic (px : List (Nat × Nat × Nat × Nat)) :
    (bmpDecodePixels px).map (fun q => (q.1, q.2.1, q.2.2.1)) =
      px.map (fun q => (q.2.2.2, q.2.2.1, q.2.1)) ∧
    (bmpMaxAlpha px = 0 → ∀ q ∈ bmpDecodePixels px, q.2.2.2 = 255) ∧
    (bmpMaxAlpha px ≠ 0 →
      (bmpDecodePixels px).map (fun q => q.2.2.2) = px.map (fun q => q.1)) ∧
    (bmpMaxAlpha px = 0 ↔ ∀ q ∈ px, q.1 = 0) := by
  refine ⟨?_, ?_, ?_, bmpMaxAlpha_zero_iff px⟩
  · rw [bmpDecodePixels, List.map_map]
    rfl
  · intro h0 q hq
    simp only [bmpDecodePixels, List.mem_map] at hq
    obtain ⟨a, _, rfl⟩ := hq
    simp [h0]
  · intro hne
    rw [bmpDecodePixels, List.map_map]
    simp only [if_neg hne]
    rfl

/-- Witness for C2: a 2-pixel array with all alpha bytes 0 — both output
alphas are 255; and a companion fact that the RGB transcription holds on
a nonzero-alpha array. -/
theorem bmp_decode_alpha_heuristic_witness :
    bmpMaxAlpha [(0, 10, 20, 30), (0, 40, 50, 60)] = 0 ∧
    (∀ q ∈ bmpDecodePixels [(0, 10, 20, 30), (0, 40, 50, 60)],
      q.2.2.2 = 255) ∧
    bmpMaxAlpha [(7, 10, 20, 30)] ≠ 0 ∧
    (bmpDecodePixels [(7, 10, 20, 30)]).map (fun q => q.2.2.2) =
      [(7, 10, 20, 30)].map (fun q => q.1) := by
  refine ⟨by decide, (bmp_decode_alpha_heuristic _).2.1 (by decide),
    by decide, (bmp_decode_alpha_heuristic _).2.2.1 (by decide)⟩

/-- C8: composing the bitmap decode (`(A,B,G,R) → (R,G,B,A')` with the
forced-opacity substitution) with the bitmap encode
(`(R,G,B,A) → (A,B,G,R)`) reproduces the original B, G, R bytes of every
pixel bit-exact; the alpha byte is `255` under forced opacity and the
original alpha otherwise, so only alpha can differ. -/
theorem bmp_roundtrip_rgb (px : List (Nat × Nat × Nat × Nat)) :
    (bmpEncodePixels (bmpDecodePixels px)).map
        (fun q => (q.2.1, q.2.2.1, q.2.2.2)) =
      px.map (fun q => (q.2.1, q.2.2.1, q.2.2.2)) ∧
    (bmpEncodePixels (bmpDecodePixels px)).map (fun q => q.1) =
      px.map (fun q => if bmpMaxAlpha px = 0 then 255 else q.1) := by
  constructor
  · rw [bmpEncodePixels, bmpDecodePixels, List.map_map, List.map_map]
    rfl
  · rw [bmpEncodePixels, bmpDecodePixels, List.map_map, List.map_map]
    by_cases h : bmpMaxAlpha px = 0
    · simp only [if_pos h]
      rfl
    · simp only [if_neg h]
      rfl

/-- From `src/unnamed/part_000` lines 176–179: bytes-per-pixel for a pixel
format, stored doubled so the non-integer NV21 value 1.5 stays integral
(`let bpp = 2` default; `nv21 → 1.5`; `rgb`/`bgr` → 3; `rgba`/`bgra` → 4).
`Math.floor(fileSize / bpp) = 2*fileSize / bppTimes2` and
`|fileSize − w*h*bpp| < 4096 ↔ |2*fileSize − w*h*bppTimes2| < 8192`,
exactly. -/
def bppTimes2 (pixelFormat : String) : Nat :=
  let b0 := 4
  let b1 := if pixelFormat == "nv21" then 3 else b0
  let b2 := if pixelFormat == "rgb" || pixelFormat == "bgr" then 6 else b1
  if pixelFormat == "rgba" || pixelFormat == "bgra" then 8 else b2

/-- From `src/unnamed/part_000` lines 184–187: the ordered candidate table. -/
def resolutions : List (Nat × Nat) :=
  [(1920, 1080), (1920, 1536), (1280, 720), (640, 480),
   (3840, 2160), (2560, 1440), (800, 600), (1024, 768)]

/-- From `src/unnamed/part_000` lines 175–200, `guessResolution`: exact pass
(`w*h === totalPixels`), then fuzzy pass
(`|fileSize − w*h*bpp| < 4096`), else the `[null, null]` sentinel
(`none`). -/
def guessResolution (fileSize : Nat) (pixelFormat : String) :
    Option (Nat × Nat) :=
  let b2 := bppTimes2 pixelFormat
  let totalPixels := 2 * fileSize / b2
  match resolutions.find? (fun p => p.1 * p.2 == totalPixels) with
  | some p => some p
  | none =>
      resolutions.find? (fun p =>
        decide ((2 * (fileSize : Int) -
          ((p.1 * p.2 * b2 : Nat) : Int)).natAbs < 8192))

/-- C3: the resolver computes `totalPixels = ⌊byteLength / bpp(format)⌋`
and returns the first table entry with `w*h = totalPixels`; failing that,
the first entry with `|byteLength − w*h*bpp| < 4096`; failing both, the
unknown sentinel (`none`) — it never throws, being a total function.  In
particular `640*480*2 + 100` bytes of UYVY resolve to `(640, 480)` via the
fuzzy pass, and a size matching nothing yields the sentinel. -/
theorem guessResolution_spec (fileSize : Nat) (pixelFormat : String) :
    guessResolution fileSize pixelFormat =
      ((resolutions.find? (fun p =>
          p.1 * p.2 == 2 * fileSize / bppTimes2 pixelFormat)).orElse
        (fun _ => resolutions.find? (fun p =>
          decide ((2 * (fileSize : Int) -
            ((p.1 * p.2 * bppTimes2 pixelFormat : Nat) : Int)).natAbs < 8192)))) ∧
    guessResolution (640 * 480 * 2 + 100) "uyvy" = some (640, 480) ∧
    guessResolution 999 "uyvy" = none := by
  refine ⟨?_, by decide, by decide⟩
  unfold guessResolution
  cases hf : resolutions.find? (fun p =>
      p.1 * p.2 == 2 * fileSize / bppTimes2 pixelFormat) with
  | none => simp [hf, Option.orElse]
  | some p => simp [hf, Option.orElse]

/-- From `src/server/index.js` line 185: the standard compressed-image
extensions that bypass the raw/legacy core entirely. -/
def STANDARD_FORMATS : List String :=
  [".jpg", ".jpeg", ".png", ".webp", ".gif", ".avif", ".tiff", ".tif", ".svg"]

/-- Caller-supplied raw options (`rawOptions`): optional width, height and
pixel-format hint. -/
structure RawOptions where
  width : Option Nat
  height : Option Nat
  pixelFormat : Option String

/-- JS truthiness of an optional number (`undefined` and `0` are falsy). -/
def truthyNat : Option Nat → Bool
  | none => false
  | some n => n != 0

/-- JS truthiness of an optional string (`undefined` and `""` are falsy). -/
def truthyStr : Option String → Bool
  | none => false
  | some s => s != ""

/-- From `src/unnamed/part_000` lines 205–241 of `getSharpInstance`: whether the
raw decode actually runs (i.e. control reaches the pixel-format switch with
usable dimensions).  `implicitRaw` is the extension list of line 208 (note:
without `.rgba`/`.bgra`); `explicitRaw = !!(rawOptions.width &&
rawOptions.height)`; if neither dimension survives, `guessResolution` may
fill both in; the decode runs iff `width && height` is truthy at line 240. -/
def rawDecodeRuns_part000 (ext : String) (opts : RawOptions)
    (fileSize : Nat) : Bool :=
  let implicitRaw :=
    [".uyvy", ".yuv", ".nv21", ".rgb", ".bgr", ".raw", ".bin"].contains ext
  let pixelFormat :=
    if truthyStr opts.pixelFormat then opts.pixelFormat.getD "" else
    if ext == ".nv21" then "nv21" else
    if ext == ".rgb" then "rgb" else
    if ext == ".bgr" then "bgr" else
    if ext == ".bgra" then "bgra" else
    if ext == ".rgba" then "rgba" else "uyvy"
  let explicitRaw := truthyNat opts.width && truthyNat opts.height
  if explicitRaw || implicitRaw then
    let w0 := opts.width.getD 0
    let h0 := opts.height.getD 0
    let wh :=
      if w0 != 0 && h0 != 0 then (w0, h0)
      else
        match guessResolution fileSize pixelFormat with
        | some p => p
        | none => (w0, h0)
    wh.1 != 0 && wh.2 != 0
  else false

/-- From `src/server/index.js` lines 199–208: the `KNOWN_RESOLUTIONS` exact
file-size lookup of the sibling dispatcher. -/
def knownResolution (size : Nat) : Option (Nat × Nat) :=
  if size == 5898240 then some (1920, 1536)
  else if size == 4147200 then some (1920, 1080)
  else if size == 1843200 then some (1280, 720)
  else if size == 614400 then some (640, 480)
  else none

/-- From `src/server/index.js` lines 184–241 of `getSharpInstance`: same
question for the variant with the `STANDARD_FORMATS` guard —
`explicitRaw` requires `!isStandard` and a pixel-format hint, and the
whole raw branch requires `!isStandard`. -/
def rawDecodeRuns_serverIndex (ext : String) (opts : RawOptions)
    (fileSize : Nat) : Bool :=
  let isStandard := STANDARD_FORMATS.contains ext
  let explicitRaw := !isStandard && truthyNat opts.width &&
    truthyNat opts.height && truthyStr opts.pixelFormat
  let implicitRaw :=
    [".uyvy", ".yuv", ".nv21", ".rgb", ".rgba", ".bgra", ".bgr", ".bin",
      ".raw"].contains ext
  if !isStandard && (explicitRaw || implicitRaw) then
    let wh :=
      if truthyNat opts.width && truthyNat opts.height then
        (opts.width.getD 0, opts.height.getD 0)
      else
        match knownResolution fileSize with
        | some p => p
        | none => (0, 0)
    wh.1 != 0 && wh.2 != 0
  else false

/-- C9 counterexample: in the `part_000` dispatcher a `.png` file — a
recognized standard extension — with explicit raw width/height/format
options does enter the raw decode path. -/
theorem standard_ext_bypass_counterexample :
    STANDARD_FORMATS.contains ".png" = true ∧
    rawDecodeRuns_part000 ".png" ⟨some 100, some 100, some "rgba"⟩ 0 = true := by
  constructor
  · decide
  · decide

/-- C9 amended: in the `src/server/index.js` dispatcher a standard-format
extension never reaches the raw decode, whatever the options; in the
`src/unnamed/part_000` dispatcher this holds only when the caller does not
supply both an explicit (truthy) raw width and height — supplying both
routes even a standard-extension file into the raw decode path. -/
theorem standard_ext_bypass_amended :
    (∀ ext opts fileSize, STANDARD_FORMATS.contains ext = true →
      rawDecodeRuns_serverIndex ext opts fileSize = false) ∧
    (∀ ext opts fileSize, STANDARD_FORMATS.contains ext = true →
      (truthyNat opts.width && truthyNat opts.height) = false →
      rawDecodeRuns_part000 ext opts fileSize = false) := by
  constructor
  · intro ext opts fileSize hstd
    have hmem : ext ∈ STANDARD_FORMATS := by
      simpa [List.contains] using hstd
    simp [rawDecodeRuns_serverIndex, hmem]
  · intro ext opts fileSize hstd hwh
    have hmem : ext ∈ STANDARD_FORMATS := by
      simpa [List.contains] using hstd
    simp only [STANDARD_FORMATS, List.mem_cons, List.not_mem_nil,
      or_false] at hmem
    have himp : ¬(ext = ".uyvy" ∨ ext = ".yuv" ∨ ext = ".nv21" ∨
        ext = ".rgb" ∨ ext = ".bgr" ∨ ext = ".raw" ∨ ext = ".bin") := by
      rcases hmem with rfl | rfl | rfl | rfl | rfl | rfl | rfl | rfl | rfl <;>
        decide
    simp [rawDecodeRuns_part000, hwh, himp]

/-- Witness for the amended C9: a `.png` with full explicit raw options is
refused by the `index.js` dispatcher, and a `.png` lacking an explicit
width is refused by the `part_000` dispatcher. -/
theorem standard_ext_bypass_amended_witness :
    STANDARD_FORMATS.contains ".png" = true ∧
    rawDecodeRuns_serverIndex ".png" ⟨some 100, some 100, some "rgba"⟩ 0 =
      false ∧
    rawDecodeRuns_part000 ".png" ⟨none, some 100, some "rgba"⟩ 0 = false := by
  refine ⟨by decide, ?_, ?_⟩
  · exact standard_ext_bypass_amended.1 ".png" ⟨some 100, some 100, some "rgba"⟩
      0 (by decide)
  · exact standard_ext_bypass_amended.2 ".png" ⟨none, some 100, some "rgba"⟩
      0 (by decide) (by decide)

end Tuku
